import Mathlib

/-!
Verification of the entry-generation subsystem of the basys build tool.

The definitions below are a shallow embedding of
`src/unnamed/part_000` (class `GenerateEntriesWebpackPlugin`: the method
`generateEntries` and the watcher set up in `apply`) and of
`src/packages/basys/lib/webpack/backend-plugin.js` (class
`BackendWebpackPlugin`).  External collaborators (the espree parser and the
path-to-regexp compiler) are passed in as function parameters; the file
contents and the glob result are passed in as an ordered list of
(path, content) pairs.
-/

set_option autoImplicit false

namespace Basys

/-! ## JavaScript string primitives used by `generateEntries` -/

/-- Helper for `jsIndexOf`: the first index at which `need` occurs in the
remaining text, scanning left to right and counting from `i`. -/
def indexOfAux (need : List Char) : List Char → Nat → Option Nat
  | [], i => if need.isPrefixOf [] then some i else none
  | c :: t, i => if need.isPrefixOf (c :: t) then some i else indexOfAux need t (i + 1)

/-- Model of JavaScript `hay.indexOf(pat)`: `some i` for the first
occurrence, `none` standing for the JavaScript return value `-1`. -/
def jsIndexOf (hay pat : String) : Option Nat :=
  indexOfAux pat.toList hay.toList 0

/-- Model of JavaScript `s.substring(a, b)`: both arguments are clamped to
`[0, s.length]` and swapped when `a > b`; the characters of `[lo, hi)` are
returned. -/
def jsSubstring (s : String) (a b : Nat) : String :=
  let n := s.toList.length
  let a := min a n
  let b := min b n
  String.mk ((s.toList.drop (min a b)).take (max a b - min a b))

/-- Model of JavaScript `s.startsWith(pre)`. -/
def jsStartsWith (s pre : String) : Bool :=
  pre.toList.isPrefixOf s.toList

/-- Lines 55-60 of `generateEntries`: locate the first
`<script>`...`</script>` region.  `none` corresponds to the branch
`start === -1 || end === -1 || start > end` (the "block was not found"
error); otherwise the text `content.substring(start + 8, end)` handed to
the parser is returned. -/
def scriptSpan (content : String) : Option String :=
  match jsIndexOf content "<script>", jsIndexOf content "</script>" with
  | some s, some e => if s > e then none else some (jsSubstring content (s + 8) e)
  | _, _ => none

/-! ## The slice of the espree AST inspected by `generateEntries` -/

/-- A property key of an object literal: the code only ever tests
`node.key.type === 'Identifier' && node.key.name === ...`, so every
non-identifier key collapses to `nonIdent`. -/
inductive JSKey where
  | ident (name : String)
  | nonIdent
  deriving DecidableEq, Repr

/-- The expression shapes distinguished by `generateEntries`: object
literals, array literals, string `Literal` nodes, non-string `Literal`
nodes (number / boolean / null), and every other expression kind. -/
inductive JSExpr where
  | objectExpr (props : List (JSKey × JSExpr))
  | arrayExpr (elems : List JSExpr)
  | strLit (s : String)
  | numLit (n : Int)
  | boolLit (b : Bool)
  | nullLit
  | otherExpr
  deriving Repr

/-- A top-level statement of the parsed module: the code only looks for
`ExportDefaultDeclaration` nodes. -/
inductive JSStmt where
  | exportDefault (decl : JSExpr)
  | otherStmt
  deriving Repr

/-- The parsed module: its ordered list of top-level statements. -/
structure JSModule where
  body : List JSStmt
  deriving Repr

/-- Line 78: `ast.body.find(node => node.type === 'ExportDefaultDeclaration')`,
projected to the declaration. -/
def findExportDefault : List JSStmt → Option JSExpr
  | [] => none
  | .exportDefault d :: _ => some d
  | .otherStmt :: rest => findExportDefault rest

/-- The test `node.key.type === 'Identifier' && node.key.name === name`. -/
def isNamedKey (name : String) : JSKey → Bool
  | .ident n => n = name
  | .nonIdent => false

/-- The lookup
`props.find(node => node.key.type === 'Identifier' && node.key.name === name)`,
projected to the property value. -/
def findProp (name : String) : List (JSKey × JSExpr) → Option JSExpr
  | [] => none
  | e :: rest => if isNamedKey name e.1 then some e.2 else findProp name rest

/-- Is the element a string `Literal`
(`appElem.type === 'Literal' && typeof appElem.value === 'string'`)? -/
def isStrLit : JSExpr → Bool
  | .strLit _ => true
  | _ => false

/-! ## Per-file metadata extraction (lines 51-136) -/

/-- The table entry built for one component file.  The code creates the
entry as the empty object `\x7b\x7d` (line 52) and the only assignment it ever
performs on it is `vueComponents[vuePath].path = ...` (line 134); the
`apps` field records that no `apps` key is ever written to the entry. -/
structure Info where
  path : Option String := none
  apps : Option (List String) := none
  deriving DecidableEq, Repr

/-- The empty object assigned at line 52. -/
def emptyInfo : Info := {}

/-- Error messages, verbatim from the source. -/
def msgScript : String := "<script>...</script> block was not found"

def msgExport : String := "Expected `export default \x7b ... \x7d` inside <script> block"

def msgInfoObj : String := "\x27info\x27 option must be an object"

def msgAppsArr : String := "\x27info.apps\x27 option must be an array of string literals"

def msgAppsItem : String := "All items of \x27info.apps\x27 option be string literals"

def msgPathStr : String := "\x27info.path\x27 option must be a string literal"

def msgPathSlash : String := "\x27info.path\x27 option must start with \x27/\x27"

/-- Lines 103-111: the loop over `appsProp.value.elements`.  Returns the
collected literal string values together with the error messages recorded
for non-string-literal elements (the `continue` there only skips the
current element). -/
def collectApps : List JSExpr → List String × List String
  | [] => ([], [])
  | e :: rest =>
    let r := collectApps rest
    match e with
    | .strLit s => (s :: r.1, r.2)
    | _ => (r.1, msgAppsItem :: r.2)

/-- Lines 120-135: validation of the `path` property of `info`.  `errs`
carries the error messages already recorded for this file.  The first
component is the table entry left for the file (always present here),
the second the final error message list. -/
def handlePath (iprops : List (JSKey × JSExpr)) (errs : List String) :
    Option Info × List String :=
  match findProp "path" iprops with
  | none => (some emptyInfo, errs)
  | some (.strLit s) =>
    if jsStartsWith s "/" then (some { path := some s }, errs)
    else (some emptyInfo, errs ++ [msgPathSlash])
  | some _ => (some emptyInfo, errs ++ [msgPathStr])

/-- Lines 88-135: processing of the value of the `info` property.  Result
`(none, errs)` models `delete this.config.vueComponents[vuePath]`
(line 114). -/
def processInfoValue (appName : String) (v : JSExpr) : Option Info × List String :=
  match v with
  | .objectExpr iprops =>
    match findProp "apps" iprops with
    | none => handlePath iprops []
    | some (.arrayExpr elems) =>
      if elems.length > 0 then
        let r := collectApps elems
        if r.1.contains appName then handlePath iprops r.2
        else (none, r.2)
      else handlePath iprops []
    | some _ => (some emptyInfo, [msgAppsArr])
  | _ => (some emptyInfo, [msgInfoObj])

/-- Lines 78-136: from the parsed module to the file's table entry and
error messages. -/
def processModule (appName : String) (m : JSModule) : Option Info × List String :=
  match findExportDefault m.body with
  | some (.objectExpr props) =>
    match findProp "info" props with
    | none => (some emptyInfo, [])
    | some v => processInfoValue appName v
  | _ => (some emptyInfo, [msgExport])

/-- Lines 52-136 for one file: `parse` models `espree.parse`, returning
`none` when the parser throws (the silently-ignored branch at
lines 74-76). -/
def processFile (appName : String) (parse : String → Option JSModule)
    (content : String) : Option Info × List String :=
  match scriptSpan content with
  | none => (some emptyInfo, [msgScript])
  | some script =>
    match parse script with
    | none => (some emptyInfo, [])
    | some m => processModule appName m

/-! ## The component table as a JavaScript object -/

/-- JavaScript object property write `obj[k] = v`: an existing key keeps
its position, a new key is appended (string-keyed property insertion
order). -/
def objSet {α : Type} (k : String) (v : α) : List (String × α) → List (String × α)
  | [] => [(k, v)]
  | e :: t => if e.1 = k then (k, v) :: t else e :: objSet k v t

/-- JavaScript `delete obj[k]`. -/
def objDelete {α : Type} (k : String) : List (String × α) → List (String × α)
  | [] => []
  | e :: t => if e.1 = k then t else e :: objDelete k t

/-- JavaScript property read `obj[k]`, `none` standing for `undefined`. -/
def objLookup {α : Type} (k : String) : List (String × α) → Option α
  | [] => none
  | e :: t => if e.1 = k then some e.2 else objLookup k t

/-- The keys of the object, in property order. -/
def keysOf {α : Type} (t : List (String × α)) : List String := t.map Prod.fst

/-- One error of a generation pass.  The helper `error` (lines 36-40)
attaches `path.relative(projectDir, filePath)` as `file`; the page-path
errors of lines 152-154 are plain `Error`s with no `file` field
(`file := none`). -/
structure GenError where
  file : Option String
  message : String
  deriving DecidableEq, Repr

/-- Model of Node `path.relative(projectDir, p)` for the only case
exercised by the plugin: the component file lies below the project
directory. -/
def relPath (projectDir p : String) : String :=
  if (projectDir ++ "/").toList.isPrefixOf p.toList then
    String.mk (p.toList.drop (projectDir.toList.length + 1))
  else p

/-- The `error` helper (lines 36-40) applied to message `msg` for file
`vp`. -/
def mkFileError (projectDir vp msg : String) : GenError :=
  { file := some (relPath projectDir vp), message := msg }

/-- The net effect of one loop iteration on `vueComponents`: the entry is
first created as the empty object (line 52) and then either left with the
info produced for the file or deleted (line 114). -/
def applyOutcome (vp : String) (r : Option Info) (tbl : List (String × Info)) :
    List (String × Info) :=
  match r with
  | some i => objSet vp i (objSet vp emptyInfo tbl)
  | none => objDelete vp (objSet vp emptyInfo tbl)

/-- The scan loop of lines 50-137: folds `processFile` over the globbed
files, threading the table and the error list. -/
def buildTableGo (appName projectDir : String) (parse : String → Option JSModule) :
    List (String × Info) → List GenError → List (String × String) →
      List (String × Info) × List GenError
  | tbl, errs, [] => (tbl, errs)
  | tbl, errs, f :: rest =>
    let r := processFile appName parse f.2
    buildTableGo appName projectDir parse (applyOutcome f.1 r.1 tbl)
      (errs ++ r.2.map (mkFileError projectDir f.1)) rest

/-! ## Project configuration and the full generation pass -/

/-- The slice of `ProjectConfig` read by the two plugins.  `port` and
`backendPort` are kept as strings: only their identity matters here. -/
structure Config where
  projectDir : String
  tempDir : String
  appName : String
  type : String
  env : String
  caseSensitive : Bool
  backendEntry : Option String
  entry : Option String
  custom : List (String × String)
  host : String
  port : String
  backendPort : String
  deriving DecidableEq, Repr

/-- Lines 49-137: `glob.sync` result and file contents are passed as the
ordered list `files`; returns the fresh `vueComponents` table and the
error list of the pass so far. -/
def buildTable (cfg : Config) (parse : String → Option JSModule)
    (files : List (String × String)) : List (String × Info) × List GenError :=
  buildTableGo cfg.appName cfg.projectDir parse [] [] files

/-- Modelled from the spec: `codeConfig` is imported from `../config`,
which is not part of the sources; per the spec it exposes only the
project's custom options plus the fixed network-addressing keys `host`,
`port` and `backendPort`.  The older revision in
`packages/basys/lib/webpack/generate-entries-plugin.js` (lines 68-75)
inlines exactly this whitelist: copy every key of `config.custom`, then
assign the three fixed keys. -/
def codeConfig (c : Config) : List (String × String) :=
  objSet "backendPort" c.backendPort (objSet "port" c.port (objSet "host" c.host c.custom))

/-- Model of `path.join(projectDir, 'src', name)` for plain segments. -/
def joinSrc (projectDir name : String) : String :=
  projectDir ++ "/src/" ++ name

/-- JavaScript `config.x && path.join(projectDir, 'src', config.x)`:
`undefined` stays `undefined`, the empty string is falsy and is returned
unchanged, any other string is joined. -/
def andThenJoinSrc (projectDir : String) : Option String → Option String
  | none => none
  | some s => if s = "" then some "" else some (joinSrc projectDir s)

/-- The data handed to `nunjucks.render('backend.js', ...)`
(lines 159-167). -/
structure BackendData where
  env : String
  appName : String
  pagePaths : List String
  entry : Option String
  conf : List (String × String)
  deriving DecidableEq, Repr

/-- The data handed to `nunjucks.render('frontend.js', ...)`
(lines 171-175). -/
structure FrontendData where
  vueComponents : List (String × Info)
  entry : Option String
  caseSensitive : Bool
  deriving DecidableEq, Repr

/-- Lines 143-157: the loop compiling `pagePaths`.  `compile` models
`pathToRegexp(p, [], {sensitive}).toString()`, `.error` its throwing
branch.  `if (info.path)` is a truthiness test, so an empty path string
is skipped. -/
def compilePagePathsGo (compile : Bool → String → Except String String) (cs : Bool) :
    List String → List GenError → List (String × Info) → List String × List GenError
  | pp, errs, [] => (pp, errs)
  | pp, errs, e :: rest =>
    match e.2.path with
    | some p =>
      if p = "" then compilePagePathsGo compile cs pp errs rest
      else
        match compile cs p with
        | .ok s => compilePagePathsGo compile cs (pp ++ [s]) errs rest
        | .error m =>
          compilePagePathsGo compile cs pp
            (errs ++ [{ file := none, message := e.1 ++ " page path error: " ++ m }]) rest
    | none => compilePagePathsGo compile cs pp errs rest

/-- The outcome of one `generateEntries` pass: the published component
table, the collected errors, and the data rendered into the backend
(web type only) and frontend entries. -/
structure GenOutput where
  table : List (String × Info)
  errors : List GenError
  backend : Option BackendData
  frontend : FrontendData
  deriving DecidableEq, Repr

/-- The whole `generateEntries` pass (lines 44-186), minus the filesystem
writes of lines 177-186 which only persist `backend`/`frontend`. -/
def generateEntries (parse : String → Option JSModule)
    (compile : Bool → String → Except String String) (cfg : Config)
    (files : List (String × String)) : GenOutput :=
  let bt := buildTable cfg parse files
  let br :=
    if cfg.type = "web" then
      let r := compilePagePathsGo compile cfg.caseSensitive [] [] bt.1
      (some { env := cfg.env, appName := cfg.appName, pagePaths := r.1,
              entry := andThenJoinSrc cfg.projectDir cfg.backendEntry,
              conf := codeConfig cfg },
       bt.2 ++ r.2)
    else (none, bt.2)
  { table := bt.1
    errors := br.2
    backend := br.1
    frontend := { vueComponents := bt.1,
                  entry := andThenJoinSrc cfg.projectDir cfg.entry,
                  caseSensitive := cfg.caseSensitive } }

/-! ## The watch controller set up in `apply` (lines 15-33) -/

/-- A chokidar filesystem event on the watched `.vue` pattern. -/
inductive FsEvent where
  | add (p : String)
  | change (p : String)
  | unlink (p : String)
  deriving DecidableEq, Repr

/-- Whether an event makes the plugin call `generateEntries` again.  The
watcher exists only when `config.env === 'dev'` (line 18); `add` and
`change` always regenerate, `unlink` only when the path is a key of the
current `vueComponents` table (line 26). -/
def eventTriggers (env : String) (tableKeys : List String) : FsEvent → Bool
  | .add _ => env == "dev"
  | .change _ => env == "dev"
  | .unlink p => env == "dev" && tableKeys.contains p

/-- How many generation passes `apply` runs: the unconditional startup
call (line 16) plus one per triggering event; each event is paired with
the table keys at the time it fires. -/
def generationRuns (env : String) (events : List (FsEvent × List String)) : Nat :=
  1 + (events.filter (fun ev => eventTriggers env ev.2 ev.1)).length

/-! ## The backend asset-writing plugin (backend-plugin.js) -/

/-- The `done` hook of `BackendWebpackPlugin` (lines 6-19).  The output
directory is a map from asset path to written content; `write` models
`fs.outputFileSync`, `.error` its throwing branch.  When the compilation
already has errors the hook returns at once; otherwise each asset is
written and a write failure is pushed onto the error list instead of
being rethrown. -/
def backendPluginDone
    (write : List (String × String) → String → String → Except String (List (String × String)))
    (outDir : List (String × String)) (errors : List String)
    (assets : List (String × String)) : List (String × String) × List String :=
  if errors.length ≠ 0 then (outDir, errors)
  else
    assets.foldl
      (fun st a =>
        match write st.1 a.1 a.2 with
        | .ok d => (d, st.2)
        | .error e => (st.1, st.2 ++ [e]))
      (outDir, errors)

/-! ## Specification-side helpers -/

/-- The route that lines 146-156 contribute for one table entry: `none`
when no (truthy) path is declared or the compiler throws, otherwise the
compiled matcher string for the path under the given case-sensitivity
flag. -/
def compiledRoute (compile : Bool → String → Except String String) (cs : Bool)
    (i : Info) : Option String :=
  match i.path with
  | some p => if p = "" then none else (compile cs p).toOption
  | none => none

/-- Every path stored in the table starts with a slash. -/
def pathsValid (tbl : List (String × Info)) : Prop :=
  ∀ e ∈ tbl, ∀ p, e.2.path = some p → jsStartsWith p "/" = true

/-- A parsed module whose single statement default-exports an object
literal carrying one property `info` with the given object-literal
value. -/
def infoModule (iprops : List (JSKey × JSExpr)) : JSModule :=
  { body := [.exportDefault (.objectExpr [(.ident "info", .objectExpr iprops)])] }

/-! ## Concrete fixtures for the closed instance theorems -/

/-- A component file content whose script region is the single letter Z. -/
def contentZ : String := "<script>Z</script>"

/-- A path-to-regexp model that always succeeds and records the
sensitivity flag in its output. -/
def compileFix : Bool → String → Except String String :=
  fun b p => .ok ((if b then "s:" else "i:") ++ p)

/-- A configuration with application type `web`. -/
def cfgBase : Config :=
  { projectDir := "/p", tempDir := "/t", appName := "app1", type := "web",
    env := "dev", caseSensitive := false, backendEntry := none, entry := none,
    custom := [], host := "h", port := "80", backendPort := "81" }

/-- A parser fixture: the script Z holds `info.path = "/a"`. -/
def parseC1 : String → Option JSModule := fun s =>
  if s = "Z" then some (infoModule [(.ident "path", .strLit "/a")]) else none

/-- The same configuration with the non-web application type `mobile`. -/
def cfgC1mobile : Config := { cfgBase with type := "mobile" }

/-- A parser fixture: the script Z holds `info.apps = ["app1"]`. -/
def parseC2 : String → Option JSModule := fun s =>
  if s = "Z" then some (infoModule [(.ident "apps", .arrayExpr [.strLit "app1"])]) else none

/-- A parser fixture: the script Z holds `info.apps = ["app1", "app2"]`. -/
def parseC3 : String → Option JSModule := fun s =>
  if s = "Z" then
    some (infoModule [(.ident "apps", .arrayExpr [.strLit "app1", .strLit "app2"])])
  else none

/-- The base configuration targeting an application named zzz. -/
def cfgC3zzz : Config := { cfgBase with appName := "zzz" }

/-- A parser fixture for a well-formed default export with no `info`
property; every other script fails to parse. -/
def parseC4 : String → Option JSModule := fun s =>
  if s = "G" then
    some { body := [.otherStmt, .exportDefault (.objectExpr [(.ident "name", .strLit "x")])] }
  else none

/-- A parser fixture: the script Z holds `info.path = "foo"` (no leading
slash) and no `apps`. -/
def parseC5 : String → Option JSModule := fun s =>
  if s = "Z" then some (infoModule [(.ident "path", .strLit "foo")]) else none

/-- A parser fixture: the script Z holds `info.apps = ["other"]` and
`info.path = "foo"`. -/
def parseC5x : String → Option JSModule := fun s =>
  if s = "Z" then
    some (infoModule
      [(.ident "apps", .arrayExpr [.strLit "other"]), (.ident "path", .strLit "foo")])
  else none

/-- The base configuration targeting an application named main. -/
def cfgC5main : Config := { cfgBase with appName := "main" }

/-- A parser fixture: the script Z holds `info.apps = [1, true]` — a
non-empty array none of whose elements is a string literal. -/
def parseC10 : String → Option JSModule := fun s =>
  if s = "Z" then
    some (infoModule [(.ident "apps", .arrayExpr [.numLit 1, .boolLit true])])
  else none

/-- First of two configurations agreeing on everything the backend entry
reads, with one custom option exposed. -/
def cfgC7a : Config :=
  { cfgBase with tempDir := "/t1", entry := some "m.js", custom := [("flag", "1")] }

/-- Second configuration: differs from the first in `tempDir` and
`entry` only. -/
def cfgC7b : Config :=
  { cfgBase with tempDir := "/t2", entry := none, custom := [("flag", "1")] }

/-- A write model that always fails. -/
def writeFail : List (String × String) → String → String → Except String (List (String × String)) :=
  fun _ _ _ => .error "EACCES"

/-! ## Lemmas about the object-table operations -/

theorem keysOf_cons {α : Type} (e : String × α) (t : List (String × α)) :
    keysOf (e :: t) = e.1 :: keysOf t := rfl

theorem objLookup_objSet_self {α : Type} (k : String) (v : α) (t : List (String × α)) :
    objLookup k (objSet k v t) = some v := by
  induction t with
  | nil => simp [objSet, objLookup]
  | cons e t ih =>
    by_cases h : e.1 = k
    · simp [objSet, objLookup, h]
    · simp [objSet, objLookup, h, ih]

theorem objLookup_objSet_ne {α : Type} {k k1 : String} (h : k ≠ k1) (v : α)
    (t : List (String × α)) : objLookup k (objSet k1 v t) = objLookup k t := by
  have h1k : ¬(k1 = k) := fun he => h he.symm
  induction t with
  | nil => simp [objSet, objLookup, h1k]
  | cons e t ih =>
    by_cases h1 : e.1 = k1
    · have he : ¬(e.1 = k) := by rw [h1]; exact h1k
      simp [objSet, objLookup, h1, h1k, he]
    · simp [objSet, objLookup, h1, ih]

theorem objLookup_objDelete_ne {α : Type} {k k1 : String} (h : k ≠ k1)
    (t : List (String × α)) : objLookup k (objDelete k1 t) = objLookup k t := by
  induction t with
  | nil => simp [objDelete]
  | cons e t ih =>
    by_cases h1 : e.1 = k1
    · have h1k : ¬(k1 = k) := fun he => h he.symm
      have he : ¬(e.1 = k) := by rw [h1]; exact h1k
      simp [objDelete, objLookup, h1, he, h1k]
    · simp [objDelete, objLookup, h1, ih]

theorem objLookup_eq_none_of_not_mem {α : Type} {k : String} {t : List (String × α)}
    (h : k ∉ keysOf t) : objLookup k t = none := by
  induction t with
  | nil => rfl
  | cons e t ih =>
    simp only [keysOf_cons, List.mem_cons] at h
    push_neg at h
    have he : ¬(e.1 = k) := fun hh => h.1 hh.symm
    simp [objLookup, he, ih h.2]

theorem objDelete_sublist {α : Type} (k : String) (t : List (String × α)) :
    (objDelete k t).Sublist t := by
  induction t with
  | nil => simp [objDelete]
  | cons e t ih =>
    by_cases h : e.1 = k
    · rw [show objDelete k (e :: t) = t from by simp [objDelete, h]]
      exact List.sublist_cons_of_sublist e (List.Sublist.refl t)
    · rw [show objDelete k (e :: t) = e :: objDelete k t from by simp [objDelete, h]]
      exact List.Sublist.cons₂ e ih

theorem nodup_keysOf_objDelete {α : Type} {k : String} {t : List (String × α)}
    (h : (keysOf t).Nodup) : (keysOf (objDelete k t)).Nodup :=
  ((objDelete_sublist k t).map Prod.fst).nodup h

theorem mem_keysOf_objSet {α : Type} {a k : String} {v : α} {t : List (String × α)}
    (h : a ∈ keysOf (objSet k v t)) : a ∈ keysOf t ∨ a = k := by
  induction t with
  | nil => simp [objSet, keysOf] at h; simp [h]
  | cons e t ih =>
    by_cases h1 : e.1 = k
    · have hs : objSet k v (e :: t) = (k, v) :: t := by simp [objSet, h1]
      rw [hs] at h
      simp only [keysOf_cons, List.mem_cons] at h
      rcases h with h | h
      · exact Or.inr h
      · exact Or.inl (by simp only [keysOf_cons, List.mem_cons]; exact Or.inr h)
    · have hs : objSet k v (e :: t) = e :: objSet k v t := by simp [objSet, h1]
      rw [hs] at h
      simp only [keysOf_cons, List.mem_cons] at h
      rcases h with h | h
      · exact Or.inl (by simp only [keysOf_cons, List.mem_cons]; exact Or.inl h)
      · rcases ih h with h2 | h2
        · exact Or.inl (by simp only [keysOf_cons, List.mem_cons]; exact Or.inr h2)
        · exact Or.inr h2

theorem nodup_keysOf_objSet {α : Type} {k : String} {v : α} {t : List (String × α)}
    (h : (keysOf t).Nodup) : (keysOf (objSet k v t)).Nodup := by
  induction t with
  | nil => simp [objSet, keysOf]
  | cons e t ih =>
    simp only [keysOf_cons, List.nodup_cons] at h
    by_cases h1 : e.1 = k
    · simp only [objSet, h1, if_pos, keysOf_cons, List.nodup_cons]
      exact ⟨h1 ▸ h.1, h.2⟩
    · simp only [objSet, h1, if_neg, not_false_iff, keysOf_cons, List.nodup_cons]
      refine ⟨fun hm => ?_, ih h.2⟩
      rcases mem_keysOf_objSet hm with hm | hm
      · exact h.1 hm
      · exact h1 hm

theorem objLookup_objDelete_self {α : Type} {k : String} {t : List (String × α)}
    (h : (keysOf t).Nodup) : objLookup k (objDelete k t) = none := by
  induction t with
  | nil => rfl
  | cons e t ih =>
    simp only [keysOf_cons, List.nodup_cons] at h
    by_cases h1 : e.1 = k
    · simp only [objDelete, h1, if_pos]
      exact objLookup_eq_none_of_not_mem (h1 ▸ h.1)
    · simp [objDelete, objLookup, h1, ih h.2]

/-! ## Lemmas about the scan loop -/

theorem objLookup_applyOutcome_self {vp : String} {r : Option Info}
    {tbl : List (String × Info)} (h : (keysOf tbl).Nodup) :
    objLookup vp (applyOutcome vp r tbl) = r := by
  cases r with
  | some i => simp [applyOutcome, objLookup_objSet_self]
  | none =>
    simp only [applyOutcome]
    exact objLookup_objDelete_self (nodup_keysOf_objSet h)

theorem objLookup_applyOutcome_ne {k vp : String} {r : Option Info}
    {tbl : List (String × Info)} (h : k ≠ vp) :
    objLookup k (applyOutcome vp r tbl) = objLookup k tbl := by
  cases r with
  | some i => simp [applyOutcome, objLookup_objSet_ne h]
  | none => simp [applyOutcome, objLookup_objDelete_ne h, objLookup_objSet_ne h]

theorem nodup_keysOf_applyOutcome {vp : String} {r : Option Info}
    {tbl : List (String × Info)} (h : (keysOf tbl).Nodup) :
    (keysOf (applyOutcome vp r tbl)).Nodup := by
  cases r with
  | some i => exact nodup_keysOf_objSet (nodup_keysOf_objSet h)
  | none => exact nodup_keysOf_objDelete (nodup_keysOf_objSet h)

theorem buildTableGo_lookup_not_mem (a pd : String) (parse : String → Option JSModule) :
    ∀ (files : List (String × String)) (tbl : List (String × Info))
      (errs : List GenError) (k : String), k ∉ files.map Prod.fst →
      objLookup k (buildTableGo a pd parse tbl errs files).1 = objLookup k tbl := by
  intro files
  induction files with
  | nil => intro tbl errs k _; rfl
  | cons f rest ih =>
    intro tbl errs k h
    simp only [List.map_cons, List.mem_cons] at h
    push_neg at h
    rw [buildTableGo, ih _ _ _ h.2, objLookup_applyOutcome_ne h.1]

theorem buildTableGo_lookup_mem (a pd : String) (parse : String → Option JSModule) :
    ∀ (files : List (String × String)) (tbl : List (String × Info))
      (errs : List GenError) (vp content : String),
      (files.map Prod.fst).Nodup → (keysOf tbl).Nodup → (vp, content) ∈ files →
      objLookup vp (buildTableGo a pd parse tbl errs files).1
        = (processFile a parse content).1 := by
  intro files
  induction files with
  | nil => intro tbl errs vp content _ _ hm; cases hm
  | cons f rest ih =>
    intro tbl errs vp content hnd htbl hm
    simp only [List.map_cons, List.nodup_cons] at hnd
    rcases List.mem_cons.mp hm with heq | hmem
    · obtain ⟨hv, hc⟩ : vp = f.1 ∧ content = f.2 :=
        ⟨congrArg Prod.fst heq, congrArg Prod.snd heq⟩
      subst hv; subst hc
      rw [buildTableGo, buildTableGo_lookup_not_mem a pd parse rest _ _ _ hnd.1,
        objLookup_applyOutcome_self htbl]
    · have hvp : vp ≠ f.1 := by
        intro hv
        exact hnd.1 (hv ▸ List.mem_map_of_mem Prod.fst hmem)
      rw [buildTableGo]
      exact ih _ _ vp content hnd.2 (nodup_keysOf_applyOutcome htbl) hmem

theorem buildTable_lookup {cfg : Config} {parse : String → Option JSModule}
    {files : List (String × String)} {vp content : String}
    (hnd : (files.map Prod.fst).Nodup) (hm : (vp, content) ∈ files) :
    objLookup vp (buildTable cfg parse files).1 = (processFile cfg.appName parse content).1 :=
  buildTableGo_lookup_mem _ _ _ files [] [] vp content hnd List.nodup_nil hm

theorem buildTableGo_errors (a pd : String) (parse : String → Option JSModule) :
    ∀ (files : List (String × String)) (tbl : List (String × Info))
      (errs : List GenError),
      (buildTableGo a pd parse tbl errs files).2
        = errs ++ files.flatMap
            (fun f => ((processFile a parse f.2).2).map (mkFileError pd f.1)) := by
  intro files
  induction files with
  | nil => intro tbl errs; simp [buildTableGo]
  | cons f rest ih =>
    intro tbl errs
    rw [buildTableGo, ih]
    simp [List.append_assoc]

theorem mem_objSet_cases {α : Type} {e : String × α} {k : String} {v : α}
    {t : List (String × α)} (h : e ∈ objSet k v t) : e ∈ t ∨ e = (k, v) := by
  induction t with
  | nil => simp [objSet] at h; simp [h]
  | cons f t ih =>
    by_cases h1 : f.1 = k
    · rw [show objSet k v (f :: t) = (k, v) :: t from by simp [objSet, h1]] at h
      rcases List.mem_cons.mp h with h | h
      · exact Or.inr h
      · exact Or.inl (List.mem_cons_of_mem _ h)
    · rw [show objSet k v (f :: t) = f :: objSet k v t from by simp [objSet, h1]] at h
      rcases List.mem_cons.mp h with h | h
      · exact Or.inl (by rw [h]; exact List.mem_cons_self f t)
      · rcases ih h with h2 | h2
        · exact Or.inl (List.mem_cons_of_mem _ h2)
        · exact Or.inr h2

theorem buildTableGo_pathsValid (a pd : String) (parse : String → Option JSModule)
    (hproc : ∀ content i p, (processFile a parse content).1 = some i →
      i.path = some p → jsStartsWith p "/" = true) :
    ∀ (files : List (String × String)) (tbl : List (String × Info))
      (errs : List GenError), pathsValid tbl →
      pathsValid (buildTableGo a pd parse tbl errs files).1 := by
  intro files
  induction files with
  | nil => intro tbl errs h; exact h
  | cons f rest ih =>
    intro tbl errs h
    rw [buildTableGo]
    refine ih _ _ ?_
    intro e he p hp
    rcases hr : (processFile a parse f.2).1 with _ | i <;> rw [hr] at he <;>
      simp only [applyOutcome] at he
    · have he2 := (objDelete_sublist f.1 _).subset he
      rcases mem_objSet_cases he2 with he3 | he3
      · exact h e he3 p hp
      · rw [he3] at hp; simp [emptyInfo] at hp
    · rcases mem_objSet_cases he with he2 | he2
      · rcases mem_objSet_cases he2 with he3 | he3
        · exact h e he3 p hp
        · rw [he3] at hp; simp [emptyInfo] at hp
      · rw [he2] at hp
        exact hproc f.2 i p hr hp

/-! ## Shape of the entry produced for one file -/

theorem handlePath_cases (iprops : List (JSKey × JSExpr)) (errs : List String) :
    (handlePath iprops errs).1 = some emptyInfo ∨
    ∃ s, (handlePath iprops errs).1 = some { path := some s, apps := none } ∧
      jsStartsWith s "/" = true := by
  unfold handlePath
  rcases findProp "path" iprops with _ | v
  · left; rfl
  · cases v with
    | strLit s =>
      by_cases hs : jsStartsWith s "/"
      · right; exact ⟨s, by simp [hs], hs⟩
      · left; simp [hs]
    | objectExpr props => left; rfl
    | arrayExpr elems => left; rfl
    | numLit n => left; rfl
    | boolLit b => left; rfl
    | nullLit => left; rfl
    | otherExpr => left; rfl

theorem processInfoValue_cases (a : String) (v : JSExpr) :
    (processInfoValue a v).1 = none ∨ (processInfoValue a v).1 = some emptyInfo ∨
    ∃ s, (processInfoValue a v).1 = some { path := some s, apps := none } ∧
      jsStartsWith s "/" = true := by
  cases v with
  | objectExpr iprops =>
    rcases hap : findProp "apps" iprops with _ | av
    · simp only [processInfoValue, hap]
      exact Or.inr (handlePath_cases iprops [])
    · cases av with
      | arrayExpr elems =>
        by_cases hl : elems.length > 0
        · by_cases hc : (collectApps elems).1.contains a
          · simp only [processInfoValue, hap, hl, if_true, hc]
            exact Or.inr (handlePath_cases iprops (collectApps elems).2)
          · left
            simp only [processInfoValue, hap, hl, if_true]
            rw [if_neg hc]
        · simp only [processInfoValue, hap, hl, if_false]
          exact Or.inr (handlePath_cases iprops [])
      | objectExpr props => right; left; simp [processInfoValue, hap]
      | strLit s => right; left; simp [processInfoValue, hap]
      | numLit n => right; left; simp [processInfoValue, hap]
      | boolLit b => right; left; simp [processInfoValue, hap]
      | nullLit => right; left; simp [processInfoValue, hap]
      | otherExpr => right; left; simp [processInfoValue, hap]
  | arrayExpr elems => right; left; rfl
  | strLit s => right; left; rfl
  | numLit n => right; left; rfl
  | boolLit b => right; left; rfl
  | nullLit => right; left; rfl
  | otherExpr => right; left; rfl

theorem processFile_entry_cases (a : String) (parse : String → Option JSModule)
    (content : String) :
    (processFile a parse content).1 = none ∨
    (processFile a parse content).1 = some emptyInfo ∨
    ∃ s, (processFile a parse content).1 = some { path := some s, apps := none } ∧
      jsStartsWith s "/" = true := by
  rcases hsc : scriptSpan content with _ | sc
  · right; left; simp [processFile, hsc]
  · rcases hp : parse sc with _ | m
    · right; left; simp [processFile, hsc, hp]
    · rcases hed : findExportDefault m.body with _ | d
      · right; left; simp [processFile, processModule, hsc, hp, hed]
      · cases d with
        | objectExpr props =>
          rcases hfi : findProp "info" props with _ | v
          · right; left; simp [processFile, processModule, hsc, hp, hed, hfi]
          · have heq : processFile a parse content = processInfoValue a v := by
              simp [processFile, processModule, hsc, hp, hed, hfi]
            rw [heq]
            exact processInfoValue_cases a v
        | arrayExpr elems => right; left; simp [processFile, processModule, hsc, hp, hed]
        | strLit s => right; left; simp [processFile, processModule, hsc, hp, hed]
        | numLit n => right; left; simp [processFile, processModule, hsc, hp, hed]
        | boolLit b => right; left; simp [processFile, processModule, hsc, hp, hed]
        | nullLit => right; left; simp [processFile, processModule, hsc, hp, hed]
        | otherExpr => right; left; simp [processFile, processModule, hsc, hp, hed]

theorem processFile_path_valid {a : String} {parse : String → Option JSModule}
    {content : String} {i : Info} {p : String}
    (h : (processFile a parse content).1 = some i) (hp : i.path = some p) :
    jsStartsWith p "/" = true := by
  rcases processFile_entry_cases a parse content with h0 | h0 | ⟨s, h0, hs⟩
  · rw [h0] at h; cases h
  · rw [h0] at h
    rw [← Option.some.inj h] at hp
    simp [emptyInfo] at hp
  · rw [h0] at h
    rw [← Option.some.inj h] at hp
    rw [← Option.some.inj hp]
    exact hs

theorem processFile_apps_none {a : String} {parse : String → Option JSModule}
    {content : String} {i : Info}
    (h : (processFile a parse content).1 = some i) : i.apps = none := by
  rcases processFile_entry_cases a parse content with h0 | h0 | ⟨s, h0, _⟩
  · rw [h0] at h; cases h
  · rw [h0] at h
    rw [← Option.some.inj h]
    simp [emptyInfo]
  · rw [h0] at h
    rw [← Option.some.inj h]

/-! ## Lemmas about collecting apps and locating the script block -/

theorem collectApps_strLits : ∀ ss : List String,
    collectApps (ss.map JSExpr.strLit) = (ss, []) := by
  intro ss
  induction ss with
  | nil => rfl
  | cons s ss ih => simp [collectApps, ih]

theorem collectApps_all_bad : ∀ {elems : List JSExpr},
    elems.all (fun e => !(isStrLit e)) = true →
    collectApps elems = ([], elems.map (fun _ => msgAppsItem)) := by
  intro elems
  induction elems with
  | nil => intro _; rfl
  | cons e rest ih =>
    intro h
    simp only [List.all_cons, Bool.and_eq_true] at h
    obtain ⟨h1, h2⟩ := h
    have hr := ih h2
    cases e with
    | strLit s => simp [isStrLit] at h1
    | objectExpr props => simp [collectApps, hr]
    | arrayExpr elems => simp [collectApps, hr]
    | numLit n => simp [collectApps, hr]
    | boolLit b => simp [collectApps, hr]
    | nullLit => simp [collectApps, hr]
    | otherExpr => simp [collectApps, hr]

theorem scriptSpan_eq_none {content : String}
    (h : jsIndexOf content "<script>" = none ∨ jsIndexOf content "</script>" = none ∨
      ∃ s e, jsIndexOf content "<script>" = some s ∧
        jsIndexOf content "</script>" = some e ∧ e < s) :
    scriptSpan content = none := by
  rcases hs : jsIndexOf content "<script>" with _ | s0
  · rcases he : jsIndexOf content "</script>" with _ | e0 <;> simp [scriptSpan, hs, he]
  · rcases he : jsIndexOf content "</script>" with _ | e0
    · simp [scriptSpan, hs, he]
    · rcases h with h | h | ⟨s, e, h1, h2, h3⟩
      · rw [hs] at h; cases h
      · rw [he] at h; cases h
      · rw [hs] at h1
        rw [he] at h2
        obtain rfl := Option.some.inj h1
        obtain rfl := Option.some.inj h2
        simp [scriptSpan, hs, he, h3]

theorem processModule_infoModule (a : String) (iprops : List (JSKey × JSExpr)) :
    processModule a (infoModule iprops) = processInfoValue a (.objectExpr iprops) := rfl

theorem handlePath_fst_isSome (iprops : List (JSKey × JSExpr)) (errs : List String) :
    ((handlePath iprops errs).1).isSome = true := by
  rcases handlePath_cases iprops errs with h | ⟨s, h, _⟩ <;> simp [h]

theorem processInfoValue_strLits (a : String) (iprops : List (JSKey × JSExpr))
    (ss : List String) (hne : ss ≠ [])
    (hap : findProp "apps" iprops = some (.arrayExpr (ss.map .strLit))) :
    processInfoValue a (.objectExpr iprops)
      = if ss.contains a then handlePath iprops [] else (none, []) := by
  have hlen : 0 < (ss.map JSExpr.strLit).length := by
    cases ss with
    | nil => exact absurd rfl hne
    | cons s t => simp
  simp only [processInfoValue, hap, gt_iff_lt, hlen, if_true, collectApps_strLits]

/-! ## The compiled route list -/

theorem compilePagePathsGo_fst (compile : Bool → String → Except String String)
    (cs : Bool) :
    ∀ (tbl : List (String × Info)) (pp : List String) (errs : List GenError),
      (compilePagePathsGo compile cs pp errs tbl).1
        = pp ++ tbl.filterMap (fun e => compiledRoute compile cs e.2) := by
  intro tbl
  induction tbl with
  | nil => intro pp errs; simp [compilePagePathsGo]
  | cons e rest ih =>
    intro pp errs
    rcases hp : e.2.path with _ | p
    · simp [compilePagePathsGo, hp, ih, compiledRoute]
    · by_cases hpe : p = ""
      · simp [compilePagePathsGo, hp, hpe, ih, compiledRoute]
      · rcases hc : compile cs p with m | s
        · simp [compilePagePathsGo, hp, hpe, hc, ih, compiledRoute, Except.toOption]
        · simp [compilePagePathsGo, hp, hpe, hc, ih, compiledRoute, Except.toOption,
            List.append_assoc]

theorem generateEntries_backend_eq (parse : String → Option JSModule)
    (compile : Bool → String → Except String String) (cfg : Config)
    (files : List (String × String)) (h : cfg.type = "web") :
    (generateEntries parse compile cfg files).backend = some
      { env := cfg.env, appName := cfg.appName,
        pagePaths := (compilePagePathsGo compile cfg.caseSensitive [] []
          (buildTableGo cfg.appName cfg.projectDir parse [] [] files).1).1,
        entry := andThenJoinSrc cfg.projectDir cfg.backendEntry,
        conf := codeConfig cfg } := by
  simp [generateEntries, h, buildTable]

/-! ## Claim C6: missing script block -/

/-- C6: for every component file whose content lacks an opening script
marker, lacks a closing marker, or whose first opening marker comes after
the first closing marker, the generation pass records exactly one error
for that file (the "block was not found" message) and the file is still
present in the output table with empty info: processing the file yields
the empty entry with that single message, and a single-file pass produces
exactly that table and error list. -/
theorem script_block_missing_single_error (appName : String)
    (parse : String → Option JSModule) (content : String)
    (h : jsIndexOf content "<script>" = none ∨ jsIndexOf content "</script>" = none ∨
      ∃ s e, jsIndexOf content "<script>" = some s ∧
        jsIndexOf content "</script>" = some e ∧ e < s) :
    processFile appName parse content = (some emptyInfo, [msgScript]) ∧
    ∀ (cfg : Config) (vp : String),
      buildTable cfg parse [(vp, content)]
        = ([(vp, emptyInfo)], [mkFileError cfg.projectDir vp msgScript]) := by
  have hs := scriptSpan_eq_none h
  have hpf : ∀ a : String, processFile a parse content = (some emptyInfo, [msgScript]) := by
    intro a; simp [processFile, hs]
  refine ⟨hpf appName, ?_⟩
  intro cfg vp
  simp [buildTable, buildTableGo, hpf cfg.appName, applyOutcome, objSet]

/-- Closed instance of C6 at a file with no script markers at all. -/
theorem script_block_missing_single_error_witness :
    processFile "app1" (fun _ => none) "plain text" = (some emptyInfo, [msgScript]) :=
  (script_block_missing_single_error "app1" (fun _ => none) "plain text"
    (Or.inl (by decide))).1

/-! ## Claim C4: lenient parse failures and absent info -/

/-- C4: a file whose embedded script fails to parse yields zero recorded
errors and a zero-metadata entry, and a file with a well-formed
default-exported object literal lacking an `info` property likewise; a
pass over the two files yields both empty entries and an empty error
list. -/
theorem lenient_parse_and_missing_info (appName : String)
    (parse : String → Option JSModule) (c1 c2 s1 s2 : String) (m : JSModule)
    (props : List (JSKey × JSExpr))
    (h1 : scriptSpan c1 = some s1) (h2 : parse s1 = none)
    (h3 : scriptSpan c2 = some s2) (h4 : parse s2 = some m)
    (h5 : findExportDefault m.body = some (.objectExpr props))
    (h6 : findProp "info" props = none) :
    processFile appName parse c1 = (some emptyInfo, []) ∧
    processFile appName parse c2 = (some emptyInfo, []) ∧
    ∀ (cfg : Config) (vp1 vp2 : String), vp1 ≠ vp2 →
      buildTable cfg parse [(vp1, c1), (vp2, c2)]
        = ([(vp1, emptyInfo), (vp2, emptyInfo)], []) := by
  have hp1 : ∀ a : String, processFile a parse c1 = (some emptyInfo, []) := by
    intro a; simp [processFile, h1, h2]
  have hp2 : ∀ a : String, processFile a parse c2 = (some emptyInfo, []) := by
    intro a; simp [processFile, processModule, h3, h4, h5, h6]
  refine ⟨hp1 appName, hp2 appName, ?_⟩
  intro cfg vp1 vp2 hne
  simp [buildTable, buildTableGo, hp1 cfg.appName, hp2 cfg.appName, applyOutcome,
    objSet, hne]

/-- Closed instance of C4: one unparsable script, one default export
without `info`, zero errors and two empty entries. -/
theorem lenient_parse_and_missing_info_witness :
    processFile "app1" parseC4 "<script>B</script>" = (some emptyInfo, []) ∧
    processFile "app1" parseC4 "<script>G</script>" = (some emptyInfo, []) := by
  have h := lenient_parse_and_missing_info "app1" parseC4 "<script>B</script>"
    "<script>G</script>" "B" "G"
    { body := [.otherStmt, .exportDefault (.objectExpr [(.ident "name", .strLit "x")])] }
    [(.ident "name", .strLit "x")] (by decide) rfl (by decide) rfl rfl rfl
  exact ⟨h.1, h.2.1⟩

/-! ## Claim C8: the watch controller -/

/-- C8: an unlink event for a path that is not a key of the current
component table never triggers a regeneration pass, whatever the
environment; and outside dev mode no filesystem event triggers one, so
generation runs exactly once — the startup call. -/
theorem watch_triggers_spec :
    (∀ (env : String) (keys : List String) (p : String),
      keys.contains p = false → eventTriggers env keys (.unlink p) = false) ∧
    (∀ (env : String) (events : List (FsEvent × List String)),
      env ≠ "dev" → generationRuns env events = 1) := by
  constructor
  · intro env keys p h
    show (env == "dev" && keys.contains p) = false
    rw [h, Bool.and_false]
  · intro env events h
    have hb : (env == "dev") = false := by
      simp only [beq_eq_false_iff_ne, ne_eq]
      exact h
    have hfil : events.filter (fun ev => eventTriggers env ev.2 ev.1) = [] := by
      rw [List.filter_eq_nil_iff]
      intro ev _
      obtain ⟨e, ks⟩ := ev
      cases e <;> simp [eventTriggers, hb]
    simp [generationRuns, hfil]

/-- Closed instance of C8: an untracked unlink in dev mode does not
trigger, and outside dev mode an add event leaves the run count at one. -/
theorem watch_triggers_spec_witness :
    eventTriggers "dev" ["/p/src/a.vue"] (.unlink "/p/src/b.vue") = false ∧
    generationRuns "production" [(.add "/p/src/a.vue", ["/p/src/a.vue"])] = 1 :=
  ⟨watch_triggers_spec.1 "dev" ["/p/src/a.vue"] "/p/src/b.vue" (by decide),
   watch_triggers_spec.2 "production" [(.add "/p/src/a.vue", ["/p/src/a.vue"])] (by decide)⟩

/-! ## Claim C9: the backend asset plugin -/

/-- C9: when the compilation error list is non-empty the done hook leaves
the output directory untouched and returns the errors unchanged; when it
starts with no errors and a write fails for an asset, the failure is
appended to the error list instead of being thrown. -/
theorem backend_plugin_skip_or_append
    (write : List (String × String) → String → String → Except String (List (String × String)))
    (outDir : List (String × String)) (errors : List String)
    (assets : List (String × String)) :
    (errors ≠ [] → backendPluginDone write outDir errors assets = (outDir, errors)) ∧
    (∀ p s e, errors = [] → write outDir p s = .error e →
      backendPluginDone write outDir errors [(p, s)] = (outDir, [e])) := by
  constructor
  · intro h
    have hl : errors.length ≠ 0 := fun h0 => h (List.length_eq_zero.mp h0)
    simp [backendPluginDone, hl]
  · intro p s e h0 hw
    subst h0
    simp [backendPluginDone, hw]

/-- Closed instance of C9: with a prior error nothing is written; with no
prior error a failing write appends its message. -/
theorem backend_plugin_skip_or_append_witness :
    backendPluginDone writeFail [("old", "x")] ["boom"] [("a.js", "src")]
      = ([("old", "x")], ["boom"]) ∧
    backendPluginDone writeFail [("old", "x")] [] [("a.js", "src")]
      = ([("old", "x")], ["EACCES"]) :=
  ⟨(backend_plugin_skip_or_append writeFail [("old", "x")] ["boom"] [("a.js", "src")]).1
      (by decide),
   (backend_plugin_skip_or_append writeFail [("old", "x")] [] [("a.js", "src")]).2
      "a.js" "src" "EACCES" rfl rfl⟩

/-! ## Claim C3: app membership filtering -/

/-- C3: for a component whose info object carries no `apps` field, or an
empty array literal, the component is present in the output table under
every application name; for a non-empty array of string literals it is
present exactly when the current application name is among those strings,
and when it is not a member the key is removed from the table entirely. -/
theorem apps_membership_filter (parse : String → Option JSModule)
    (content sc : String) (iprops : List (JSKey × JSExpr))
    (hsc : scriptSpan content = some sc)
    (hm : parse sc = some (infoModule iprops)) :
    (findProp "apps" iprops = none →
      ∀ (cfg : Config) (files : List (String × String)) (vp : String),
        (files.map Prod.fst).Nodup → (vp, content) ∈ files →
        (objLookup vp (buildTable cfg parse files).1).isSome = true) ∧
    (findProp "apps" iprops = some (.arrayExpr []) →
      ∀ (cfg : Config) (files : List (String × String)) (vp : String),
        (files.map Prod.fst).Nodup → (vp, content) ∈ files →
        (objLookup vp (buildTable cfg parse files).1).isSome = true) ∧
    (∀ ss : List String, ss ≠ [] →
      findProp "apps" iprops = some (.arrayExpr (ss.map .strLit)) →
      ∀ (cfg : Config) (files : List (String × String)) (vp : String),
        (files.map Prod.fst).Nodup → (vp, content) ∈ files →
        ((objLookup vp (buildTable cfg parse files).1).isSome = ss.contains cfg.appName ∧
         (ss.contains cfg.appName = false →
           objLookup vp (buildTable cfg parse files).1 = none))) := by
  have hred : ∀ a : String,
      (processFile a parse content).1 = (processInfoValue a (.objectExpr iprops)).1 := by
    intro a
    simp [processFile, hsc, hm, processModule_infoModule]
  refine ⟨?_, ?_, ?_⟩
  · intro hap cfg files vp hnd hmem
    rw [buildTable_lookup hnd hmem, hred]
    simp only [processInfoValue, hap]
    exact handlePath_fst_isSome iprops []
  · intro hap cfg files vp hnd hmem
    rw [buildTable_lookup hnd hmem, hred]
    simp only [processInfoValue, hap, List.length_nil, gt_iff_lt, Nat.lt_irrefl, if_false]
    exact handlePath_fst_isSome iprops []
  · intro ss hne hap cfg files vp hnd hmem
    have hl := @buildTable_lookup cfg parse files vp content hnd hmem
    have hpv := processInfoValue_strLits cfg.appName iprops ss hne hap
    cases hc : ss.contains cfg.appName with
    | true =>
      rw [hc] at hpv
      simp only [if_true] at hpv
      constructor
      · rw [hl, hred, hpv]
        exact handlePath_fst_isSome iprops []
      · intro hcf
        cases hcf
    | false =>
      rw [hc] at hpv
      simp only [Bool.false_eq_true, if_false] at hpv
      constructor
      · rw [hl, hred, hpv]
        rfl
      · intro _
        rw [hl, hred, hpv]

/-- Closed instance of C3: a component restricted to apps app1 and app2 is
removed entirely when generating for application zzz. -/
theorem apps_membership_filter_witness :
    objLookup "/p/src/a.vue"
      (buildTable cfgC3zzz parseC3 [("/p/src/a.vue", contentZ)]).1 = none := by
  have h := (apps_membership_filter parseC3 contentZ "Z"
    [(.ident "apps", .arrayExpr [.strLit "app1", .strLit "app2"])]
    (by decide) rfl).2.2 ["app1", "app2"] (by decide) rfl cfgC3zzz
    [("/p/src/a.vue", contentZ)] "/p/src/a.vue" (by decide) (by decide)
  exact h.2 (by decide)

/-! ## Claim C2: where the collected apps strings go -/

/-- C2 counterexample: for a file declaring `info.apps = ["app1"]` under
the application app1, the final table entry is the empty object — its
`apps` field is `none`, not the collected list `["app1"]` the claim says
is stored there. -/
theorem apps_not_stored_cex :
    objLookup "/p/src/a.vue"
        (buildTable cfgBase parseC2 [("/p/src/a.vue", contentZ)]).1 = some emptyInfo ∧
    ¬ ∃ i, objLookup "/p/src/a.vue"
        (buildTable cfgBase parseC2 [("/p/src/a.vue", contentZ)]).1 = some i ∧
      i.apps = some ["app1"] := by
  have h : objLookup "/p/src/a.vue"
      (buildTable cfgBase parseC2 [("/p/src/a.vue", contentZ)]).1 = some emptyInfo := by
    decide
  refine ⟨h, ?_⟩
  rintro ⟨i, h1, h2⟩
  rw [h] at h1
  rw [← Option.some.inj h1] at h2
  simp [emptyInfo] at h2

/-- C2 (amended): the literal string values of `info.apps` are collected
into a local list that decides app membership — the component stays in
the table when the current application name is among them — but they are
not stored in the table entry, whose `apps` field is never written. -/
theorem apps_collected_locally (appName : String) (parse : String → Option JSModule)
    (content sc : String) (iprops : List (JSKey × JSExpr)) (ss : List String)
    (hsc : scriptSpan content = some sc) (hm : parse sc = some (infoModule iprops))
    (hap : findProp "apps" iprops = some (.arrayExpr (ss.map .strLit)))
    (hne : ss ≠ []) (hmem : ss.contains appName = true) :
    collectApps (ss.map .strLit) = (ss, []) ∧
    ((processFile appName parse content).1).isSome = true ∧
    ∀ i, (processFile appName parse content).1 = some i → i.apps = none := by
  have hred : (processFile appName parse content).1
      = (processInfoValue appName (.objectExpr iprops)).1 := by
    simp [processFile, hsc, hm, processModule_infoModule]
  have hpv := processInfoValue_strLits appName iprops ss hne hap
  rw [hmem] at hpv
  simp only [if_true] at hpv
  refine ⟨collectApps_strLits ss, ?_, ?_⟩
  · rw [hred, hpv]
    exact handlePath_fst_isSome iprops []
  · intro i h
    exact processFile_apps_none h

/-- Closed instance of the amended C2 at `info.apps = ["app1"]` under
application app1. -/
theorem apps_collected_locally_witness :
    collectApps (["app1"].map .strLit) = (["app1"], []) ∧
    ((processFile "app1" parseC2 contentZ).1).isSome = true := by
  have h := apps_collected_locally "app1" parseC2 contentZ "Z"
    [(.ident "apps", .arrayExpr [.strLit "app1"])] ["app1"]
    (by decide) rfl rfl (by decide) (by decide)
  exact ⟨h.1, h.2.1⟩

/-! ## Claim C10: non-literal apps elements -/

/-- C10: a component whose `info.apps` is a non-empty array literal in
which no element is a string literal is removed from the table whatever
the current application name, with one recorded error per element. -/
theorem apps_all_bad_removed (parse : String → Option JSModule)
    (content sc : String) (iprops : List (JSKey × JSExpr)) (elems : List JSExpr)
    (hsc : scriptSpan content = some sc) (hm : parse sc = some (infoModule iprops))
    (hap : findProp "apps" iprops = some (.arrayExpr elems))
    (hne : elems ≠ []) (hbad : elems.all (fun e => !(isStrLit e)) = true) :
    (∀ appName, processFile appName parse content
        = (none, elems.map (fun _ => msgAppsItem))) ∧
    ∀ (cfg : Config) (vp : String),
      buildTable cfg parse [(vp, content)]
        = ([], elems.map (fun _ => mkFileError cfg.projectDir vp msgAppsItem)) := by
  have hcol := collectApps_all_bad hbad
  have hlen : 0 < elems.length := by
    cases elems with
    | nil => exact absurd rfl hne
    | cons e t => simp
  have hpf : ∀ a : String, processFile a parse content
      = (none, elems.map (fun _ => msgAppsItem)) := by
    intro a
    simp only [processFile, hsc, hm, processModule_infoModule, processInfoValue, hap,
      gt_iff_lt, hlen, if_true, hcol]
    simp
  refine ⟨hpf, ?_⟩
  intro cfg vp
  simp [buildTable, buildTableGo, hpf cfg.appName, applyOutcome, objSet, objDelete,
    List.map_map, Function.comp]

/-- Closed instance of C10 at `info.apps = [1, true]`: the key is gone and
two item errors are recorded. -/
theorem apps_all_bad_removed_witness :
    buildTable cfgBase parseC10 [("/p/src/a.vue", contentZ)]
      = ([], [mkFileError "/p" "/p/src/a.vue" msgAppsItem,
              mkFileError "/p" "/p/src/a.vue" msgAppsItem]) := by
  have h := (apps_all_bad_removed parseC10 contentZ "Z"
    [(.ident "apps", .arrayExpr [.numLit 1, .boolLit true])] [.numLit 1, .boolLit true]
    (by decide) rfl rfl (by simp) rfl).2 cfgBase "/p/src/a.vue"
  exact h

/-! ## Claim C5: path without leading slash -/

/-- C5 counterexample: a component with the non-slash string literal
`info.path = "foo"` but whose `info.apps = ["other"]` excludes the current
application main is deleted by the membership filter before the path check
runs — the pass records zero errors and the key is absent, against the
claimed exactly-one-error and key-still-present. -/
theorem invalid_path_masked_cex :
    buildTable cfgC5main parseC5x [("/p/src/a.vue", contentZ)] = ([], []) := by
  decide

/-- C5 (amended): for a component file whose info object reaches the path
check — its `apps` field is absent or a string-literal array that does not
exclude the current application — and whose `info.path` is a string
literal not starting with a slash, the pass records exactly one error for
the file (the "must start with" message), keeps the key with empty info,
and compiles no route for it. -/
theorem invalid_path_single_error (appName : String) (parse : String → Option JSModule)
    (content sc : String) (iprops : List (JSKey × JSExpr)) (ps : String)
    (hsc : scriptSpan content = some sc) (hm : parse sc = some (infoModule iprops))
    (happs : findProp "apps" iprops = none ∨
      ∃ ss : List String, findProp "apps" iprops = some (.arrayExpr (ss.map .strLit)) ∧
        (ss ≠ [] → ss.contains appName = true))
    (hpath : findProp "path" iprops = some (.strLit ps))
    (hslash : jsStartsWith ps "/" = false) :
    processFile appName parse content = (some emptyInfo, [msgPathSlash]) ∧
    (∀ cfg : Config, cfg.appName = appName → ∀ vp : String,
      buildTable cfg parse [(vp, content)]
        = ([(vp, emptyInfo)], [mkFileError cfg.projectDir vp msgPathSlash])) ∧
    (∀ (compile : Bool → String → Except String String) (cfg : Config) (vp : String),
      cfg.appName = appName → cfg.type = "web" →
      ((generateEntries parse compile cfg [(vp, content)]).backend).map
          BackendData.pagePaths = some []) := by
  have hhp : handlePath iprops [] = (some emptyInfo, [msgPathSlash]) := by
    simp [handlePath, hpath, hslash]
  have hpf : processFile appName parse content = (some emptyInfo, [msgPathSlash]) := by
    rcases happs with hap | ⟨ss, hap, hincl⟩
    · simp [processFile, hsc, hm, processModule_infoModule, processInfoValue, hap, hhp]
    · by_cases hz : ss = []
      · subst hz
        simp [processFile, hsc, hm, processModule_infoModule, processInfoValue, hap, hhp]
      · have hpv := processInfoValue_strLits appName iprops ss hz hap
        rw [hincl hz] at hpv
        simp only [if_true] at hpv
        simp [processFile, hsc, hm, processModule_infoModule, hpv, hhp]
  have htbl : ∀ cfg : Config, cfg.appName = appName → ∀ vp : String,
      buildTable cfg parse [(vp, content)]
        = ([(vp, emptyInfo)], [mkFileError cfg.projectDir vp msgPathSlash]) := by
    intro cfg hca vp
    have hpf2 : processFile cfg.appName parse content = (some emptyInfo, [msgPathSlash]) := by
      rw [hca]; exact hpf
    simp [buildTable, buildTableGo, hpf2, applyOutcome, objSet]
  refine ⟨hpf, htbl, ?_⟩
  intro compile cfg vp hca hweb
  have ht : (buildTable cfg parse [(vp, content)]).1 = [(vp, emptyInfo)] := by
    rw [htbl cfg hca vp]
  simp [generateEntries, hweb, ht, compilePagePathsGo, emptyInfo]

/-- Closed instance of the amended C5: `info.path = "foo"` with no apps
restriction under application app1. -/
theorem invalid_path_single_error_witness :
    processFile "app1" parseC5 contentZ = (some emptyInfo, [msgPathSlash]) :=
  (invalid_path_single_error "app1" parseC5 contentZ "Z"
    [(.ident "path", .strLit "foo")] "foo" (by decide) rfl (Or.inl rfl) rfl
    (by decide)).1

/-! ## Claim C1: route compilation and application type -/

/-- C1 counterexample: under the non-web application type mobile, a pass
whose single component is active and declares the valid path "/a" compiles
no route set at all — the backend entry data, and with it pagePaths, does
not exist, against the claim that routes are compiled for every
application type. -/
theorem routes_only_web_cex :
    (generateEntries parseC1 compileFix cfgC1mobile
        [("/p/src/a.vue", contentZ)]).table
      = [("/p/src/a.vue", { path := some "/a", apps := none })] ∧
    (generateEntries parseC1 compileFix cfgC1mobile
        [("/p/src/a.vue", contentZ)]).backend = none := by
  decide

/-- C1 (amended): a route set is compiled only for the web application
type; there pagePaths holds exactly the successful compilations of the
declared paths of the still-active components, one entry per such
component in table order, each compiled with the case-sensitivity flag of
the project.  Every stored path starts with a slash, and a declared path
whose compilation succeeds contributes exactly its compiled matcher. -/
theorem pagePaths_web_routes (parse : String → Option JSModule)
    (compile : Bool → String → Except String String) (cfg : Config)
    (files : List (String × String)) :
    (cfg.type ≠ "web" → (generateEntries parse compile cfg files).backend = none) ∧
    (cfg.type = "web" →
      ((generateEntries parse compile cfg files).backend).map BackendData.pagePaths
        = some (((generateEntries parse compile cfg files).table).filterMap
            (fun e => compiledRoute compile cfg.caseSensitive e.2))) ∧
    pathsValid (generateEntries parse compile cfg files).table ∧
    (∀ vp i p s, (vp, i) ∈ (generateEntries parse compile cfg files).table →
      i.path = some p → compile cfg.caseSensitive p = .ok s →
      compiledRoute compile cfg.caseSensitive i = some s) := by
  have hteq : (generateEntries parse compile cfg files).table
      = (buildTable cfg parse files).1 := by
    simp [generateEntries]
  have htv : pathsValid (generateEntries parse compile cfg files).table := by
    rw [hteq]
    refine buildTableGo_pathsValid cfg.appName cfg.projectDir parse
      (fun content i p h hp => processFile_path_valid h hp) files [] [] ?_
    intro e he p hp
    exact absurd he (List.not_mem_nil e)
  refine ⟨?_, ?_, htv, ?_⟩
  · intro h
    simp [generateEntries, h]
  · intro h
    simp [generateEntries, h, buildTable, compilePagePathsGo_fst]
  · intro vp i p s hm hp hc
    have hv := htv (vp, i) hm p hp
    have hne : p ≠ "" := by
      intro h0
      rw [h0] at hv
      exact absurd hv (by decide)
    simp [compiledRoute, hp, hne, hc, Except.toOption]

/-- Closed instance of the amended C1 at a web configuration with one
routed component. -/
theorem pagePaths_web_routes_witness :
    cfgBase.type = "web" ∧
    ((generateEntries parseC1 compileFix cfgBase
        [("/p/src/a.vue", contentZ)]).backend).map BackendData.pagePaths
      = some (((generateEntries parseC1 compileFix cfgBase
          [("/p/src/a.vue", contentZ)]).table).filterMap
            (fun e => compiledRoute compileFix cfgBase.caseSensitive e.2)) :=
  ⟨rfl, (pagePaths_web_routes parseC1 compileFix cfgBase
    [("/p/src/a.vue", contentZ)]).2.1 rfl⟩

/-! ## Claim C7: configuration exposed to the backend entry -/

/-- C7: the backend entry data depends only on the exposed custom
configuration keys, the fixed network-addressing keys host, port and
backendPort, and the other template inputs — environment, application
name, backend entry override, project directory, case sensitivity and the
scanned files: two web configurations agreeing on these produce identical
backend entry data whatever their remaining configuration values. -/
theorem backend_conf_noninterference (parse : String → Option JSModule)
    (compile : Bool → String → Except String String)
    (files : List (String × String)) (c1 c2 : Config)
    (hcustom : c1.custom = c2.custom) (hhost : c1.host = c2.host)
    (hport : c1.port = c2.port) (hbp : c1.backendPort = c2.backendPort)
    (henv : c1.env = c2.env) (happ : c1.appName = c2.appName)
    (hbe : c1.backendEntry = c2.backendEntry) (hpd : c1.projectDir = c2.projectDir)
    (hcs : c1.caseSensitive = c2.caseSensitive)
    (ht1 : c1.type = "web") (ht2 : c2.type = "web") :
    (generateEntries parse compile c1 files).backend
      = (generateEntries parse compile c2 files).backend := by
  rw [generateEntries_backend_eq parse compile c1 files ht1,
    generateEntries_backend_eq parse compile c2 files ht2]
  simp only [codeConfig, henv, happ, hbe, hpd, hcs, hcustom, hhost, hport, hbp]

/-- Closed instance of C7: the two fixture configurations differ in
`tempDir` and in the frontend entry override yet give the same backend
entry data. -/
theorem backend_conf_noninterference_witness :
    (generateEntries parseC1 compileFix cfgC7a [("/p/src/a.vue", contentZ)]).backend
      = (generateEntries parseC1 compileFix cfgC7b
          [("/p/src/a.vue", contentZ)]).backend :=
  backend_conf_noninterference parseC1 compileFix [("/p/src/a.vue", contentZ)]
    cfgC7a cfgC7b rfl rfl rfl rfl rfl rfl rfl rfl rfl rfl rfl

end Basys
